import Mathlib

/-!
Verification of the QOI-style image decoder (crate `okay`).

The definitions below are a shallow embedding of `src/pixel.rs`,
`src/pixel_index.rs`, `src/byte_stream.rs`, `src/header.rs` and
`src/decode.rs`.  Machine integers (`u8`, `u32`, `u64`, `usize`) are
modelled as `Nat` with explicit `% 2^w` reductions at the points where
the Rust code performs wrapping arithmetic or byte reads; the platform
is taken to be 64-bit (`usize` = `u64`).  Fallible Rust functions
returning `Result` are modelled with `Except`.
-/

deriving instance DecidableEq for Except

/-- Translated from `src/pixel.rs`: a four-channel pixel.  Each channel is a
`u8`, modelled as a `Nat` that is always reduced modulo 256 by the
operations that write it. -/
structure Pixel where
  r : Nat
  g : Nat
  b : Nat
  a : Nat
deriving DecidableEq, Repr

/-- Translated from `src/pixel.rs`: `Pixel::ZERO = (0,0,0,0)`. -/
def Pixel.ZERO : Pixel := ⟨0, 0, 0, 0⟩

/-- Translated from `src/pixel.rs`: `Pixel::BLACK = (0,0,0,255)`. -/
def Pixel.BLACK : Pixel := ⟨0, 0, 0, 255⟩

/-- Translated from `src/pixel.rs`: `Pixel::rgba`. -/
def Pixel.rgba (p : Pixel) : List Nat := [p.r, p.g, p.b, p.a]

/-- Translated from `src/pixel.rs`: `Pixel::argb`. -/
def Pixel.argb (p : Pixel) : List Nat := [p.a, p.r, p.g, p.b]

/-- Translated from `src/pixel.rs`: `Pixel::rgb`. -/
def Pixel.rgb (p : Pixel) : List Nat := [p.r, p.g, p.b]

/-- `u8::wrapping_add` on channel values: addition modulo 256. -/
def wadd8 (x y : Nat) : Nat := (x + y) % 256

/-- `u8::wrapping_sub` on channel values: subtraction modulo 256
(the `+ 256` keeps the `Nat` subtraction from truncating). -/
def wsub8 (x y : Nat) : Nat := (x + 256 - y % 256) % 256

/-- Translated from `src/pixel_index.rs`: the 64-slot color index is a
fixed array of pixels; we model it as a `List Pixel` of length 64. -/
def PixelIndex := List Pixel
deriving DecidableEq

/-- Translated from `src/pixel_index.rs`: `PixelIndex::new`, the
zero-initialised index. -/
def PixelIndex.new : PixelIndex := List.replicate 64 Pixel.ZERO

/-- Translated from `src/pixel_index.rs`: `pixel_hash`,
`(3r + 5g + 7b + 11a) % 64`. -/
def pixel_hash (p : Pixel) : Nat :=
  (p.r * 3 + p.g * 5 + p.b * 7 + p.a * 11) % 64

/-- Translated from `src/pixel_index.rs`: `PixelIndex::insert` writes the
pixel into the slot selected by its hash, unconditionally. -/
def PixelIndex.insert (idx : PixelIndex) (p : Pixel) : PixelIndex :=
  List.set idx (pixel_hash p) p

/-- Translated from `src/pixel_index.rs`: `PixelIndex::masked_get`; the
chunk byte is masked to its low 6 bits (`% 64`) and used as an index. -/
def PixelIndex.masked_get (idx : PixelIndex) (chunk : Nat) : Pixel :=
  List.getD idx (chunk % 64) Pixel.ZERO

/-- Translated from `src/byte_stream.rs`: `StreamError` is either an
unexpected end of data or a transport IO failure (payload abstracted). -/
inductive StreamError where
  | unexpectedEof
  | ioErr
deriving DecidableEq, Repr

/-- One element of a byte source: either a byte (a `u8`, reduced mod 256
when read) or a transport IO failure, as produced by the iterator-backed
stream of `src/byte_stream.rs`.  A slice-backed stream is the special
case with no `ioFail` items. -/
inductive StreamItem where
  | byte (b : Nat)
  | ioFail
deriving DecidableEq, Repr

/-- A byte source is modelled as the list of items it will yield. -/
def ByteStream := List StreamItem
deriving DecidableEq

/-- Translated from `src/byte_stream.rs`: `read_one` yields the next byte
(reduced mod 256, since the source type is `u8`), or the error, together
with the rest of the stream. -/
def readOne : ByteStream → (Except StreamError Nat) × ByteStream
  | [] => (.error .unexpectedEof, [])
  | .byte b :: s => (.ok (b % 256), s)
  | .ioFail :: s => (.error .ioErr, s)

/-- Translated from `src/byte_stream.rs`: `read_n::<3>` assembled from
three single-byte reads. -/
def read3 (s : ByteStream) : (Except StreamError (Nat × Nat × Nat)) × ByteStream :=
  match readOne s with
  | (.error e, s) => (.error e, s)
  | (.ok b1, s) =>
    match readOne s with
    | (.error e, s) => (.error e, s)
    | (.ok b2, s) =>
      match readOne s with
      | (.error e, s) => (.error e, s)
      | (.ok b3, s) => (.ok (b1, b2, b3), s)

/-- Translated from `src/byte_stream.rs`: `read_n::<4>` assembled from
four single-byte reads. -/
def read4 (s : ByteStream) : (Except StreamError (Nat × Nat × Nat × Nat)) × ByteStream :=
  match readOne s with
  | (.error e, s) => (.error e, s)
  | (.ok b1, s) =>
    match read3 s with
    | (.error e, s) => (.error e, s)
    | (.ok (b2, b3, b4), s) => (.ok (b1, b2, b3, b4), s)

/-- Translated from `src/decode.rs`: the `PixelDecoder` state.
`remaining` is a `u64` (its value never exceeds `width*height < 2^64`
when created by header decoding); `run` is a `u8` in `[0,63]`. -/
structure PixelDecoder where
  stream : ByteStream
  previous : Pixel
  index : PixelIndex
  remaining : Nat
  run : Nat
  errored : Bool
deriving DecidableEq

/-- Translated from `src/decode.rs`: `PixelDecoder::new`. -/
def PixelDecoder.new (s : ByteStream) (numPixels : Nat) : PixelDecoder :=
  { stream := s
    previous := Pixel.BLACK
    index := PixelIndex.new
    remaining := numPixels
    run := 0
    errored := false }

/-- Translated from `src/decode.rs`: `<PixelDecoder as Iterator>::next`.
Returns the produced item (none when exhausted or already errored) and
the updated decoder state. -/
def PixelDecoder.next (d : PixelDecoder) :
    Option (Except StreamError Pixel) × PixelDecoder :=
  if d.errored = true ∨ d.remaining = 0 then
    (none, d)
  else
    let d := { d with remaining := d.remaining - 1 }
    if 0 < d.run then
      (some (.ok d.previous), { d with run := d.run - 1 })
    else
      match readOne d.stream with
      | (.error e, s) => (some (.error e), { d with stream := s, errored := true })
      | (.ok b0, s) =>
        if b0 = 0xFE then
          -- QOI_OP_RGB
          match read3 s with
          | (.error e, s) => (some (.error e), { d with stream := s, errored := true })
          | (.ok (r, g, b), s) =>
            let p : Pixel := { d.previous with r := r, g := g, b := b }
            (some (.ok p), { d with stream := s, previous := p, index := d.index.insert p })
        else if b0 = 0xFF then
          -- QOI_OP_RGBA
          match read4 s with
          | (.error e, s) => (some (.error e), { d with stream := s, errored := true })
          | (.ok (r, g, b, a), s) =>
            let p : Pixel := ⟨r, g, b, a⟩
            (some (.ok p), { d with stream := s, previous := p, index := d.index.insert p })
        else if b0 / 64 = 0 then
          -- QOI_OP_INDEX
          let p := d.index.masked_get b0
          (some (.ok p), { d with stream := s, previous := p })
        else if b0 / 64 = 1 then
          -- QOI_OP_DIFF
          let p : Pixel := { d.previous with
            r := wadd8 (wsub8 d.previous.r 2) (b0 / 16 % 4)
            g := wadd8 (wsub8 d.previous.g 2) (b0 / 4 % 4)
            b := wadd8 (wsub8 d.previous.b 2) (b0 % 4) }
          (some (.ok p), { d with stream := s, previous := p, index := d.index.insert p })
        else if b0 / 64 = 2 then
          -- QOI_OP_LUMA
          match readOne s with
          | (.error e, s) => (some (.error e), { d with stream := s, errored := true })
          | (.ok b1, s) =>
            let dg := wsub8 (b0 % 64) 32
            let p : Pixel := { d.previous with
              r := wadd8 (wsub8 (wadd8 d.previous.r dg) 8) (b1 / 16 % 16)
              g := wadd8 d.previous.g dg
              b := wadd8 (wsub8 (wadd8 d.previous.b dg) 8) (b1 % 16) }
            (some (.ok p), { d with stream := s, previous := p, index := d.index.insert p })
        else
          -- QOI_OP_RUN
          (some (.ok d.previous), { d with stream := s, run := b0 % 64 })

/-- The loop of `PixelDecoder::decode_into` from `src/decode.rs`,
translated iteration-for-iteration.  The counter is the number of loop
iterations still to run (`num_pixels - i`); the list collects the values
written to `buf` in order.  The loop touches `stream`, `previous`,
`index` and `run` but neither `remaining` nor `errored`, exactly like
the source loop. -/
def decodeIntoLoop {T : Type} (transform : Pixel → T) :
    Nat → PixelDecoder → (Except StreamError Unit) × List T × PixelDecoder
  | 0, d => (.ok (), [], d)
  | k + 1, d =>
    if 0 < d.run then
      let d := { d with run := d.run - 1 }
      let r := decodeIntoLoop transform k d
      (r.1, transform d.previous :: r.2.1, r.2.2)
    else
      match readOne d.stream with
      | (.error e, s) => (.error e, [], { d with stream := s })
      | (.ok b0, s) =>
        if b0 = 0xFE then
          -- QOI_OP_RGB
          match read3 s with
          | (.error e, s) => (.error e, [], { d with stream := s })
          | (.ok (r, g, b), s) =>
            let p : Pixel := { d.previous with r := r, g := g, b := b }
            let d := { d with stream := s, previous := p, index := d.index.insert p }
            let rec' := decodeIntoLoop transform k d
            (rec'.1, transform p :: rec'.2.1, rec'.2.2)
        else if b0 = 0xFF then
          -- QOI_OP_RGBA
          match read4 s with
          | (.error e, s) => (.error e, [], { d with stream := s })
          | (.ok (r, g, b, a), s) =>
            let p : Pixel := ⟨r, g, b, a⟩
            let d := { d with stream := s, previous := p, index := d.index.insert p }
            let rec' := decodeIntoLoop transform k d
            (rec'.1, transform p :: rec'.2.1, rec'.2.2)
        else if b0 / 64 = 0 then
          -- QOI_OP_INDEX
          let p := d.index.masked_get b0
          let d := { d with stream := s, previous := p }
          let rec' := decodeIntoLoop transform k d
          (rec'.1, transform p :: rec'.2.1, rec'.2.2)
        else if b0 / 64 = 1 then
          -- QOI_OP_DIFF
          let p : Pixel := { d.previous with
            r := wadd8 (wsub8 d.previous.r 2) (b0 / 16 % 4)
            g := wadd8 (wsub8 d.previous.g 2) (b0 / 4 % 4)
            b := wadd8 (wsub8 d.previous.b 2) (b0 % 4) }
          let d := { d with stream := s, previous := p, index := d.index.insert p }
          let rec' := decodeIntoLoop transform k d
          (rec'.1, transform p :: rec'.2.1, rec'.2.2)
        else if b0 / 64 = 2 then
          -- QOI_OP_LUMA
          match readOne s with
          | (.error e, s) => (.error e, [], { d with stream := s })
          | (.ok b1, s) =>
            let dg := wsub8 (b0 % 64) 32
            let p : Pixel := { d.previous with
              r := wadd8 (wsub8 (wadd8 d.previous.r dg) 8) (b1 / 16 % 16)
              g := wadd8 d.previous.g dg
              b := wadd8 (wsub8 (wadd8 d.previous.b dg) 8) (b1 % 16) }
            let d := { d with stream := s, previous := p, index := d.index.insert p }
            let rec' := decodeIntoLoop transform k d
            (rec'.1, transform p :: rec'.2.1, rec'.2.2)
        else
          -- QOI_OP_RUN
          let d := { d with stream := s, run := b0 % 64 }
          let rec' := decodeIntoLoop transform k d
          (rec'.1, transform d.previous :: rec'.2.1, rec'.2.2)

/-- Translated from `src/decode.rs`: `PixelDecoder::decode_into`.
`bufLen` is the length of the caller-supplied buffer; the returned list
is the prefix of the buffer that was written.  On success the count
`num_pixels = min remaining bufLen` is returned and subtracted from
`remaining`; on a stream error the early `return` skips that
subtraction, leaving `remaining` unchanged. -/
def PixelDecoder.decode_into {T : Type} (d : PixelDecoder)
    (bufLen : Nat) (transform : Pixel → T) :
    (Except StreamError Nat) × List T × PixelDecoder :=
  let numPixels := min d.remaining bufLen
  match decodeIntoLoop transform numPixels d with
  | (.ok (), out, d₁) =>
    (.ok numPixels, out, { d₁ with remaining := d.remaining - numPixels })
  | (.error e, out, d₁) => (.error e, out, d₁)

/-- Translated from `src/decode.rs`: `PixelDecoder::remaining_pixels`. -/
def PixelDecoder.remaining_pixels (d : PixelDecoder) : Nat := d.remaining

/-- Iterating `next` a given number of times, collecting the produced
items; pulling stops contributing once `next` yields `none` (further
pulls leave the state unchanged). -/
def pulls : Nat → PixelDecoder → List (Except StreamError Pixel) × PixelDecoder
  | 0, d => ([], d)
  | k + 1, d =>
    match d.next with
    | (none, d₁) => ([], d₁)
    | (some x, d₁) =>
      let r := pulls k d₁
      (x :: r.1, r.2)

/-- Translated from `src/decode.rs`: `<PixelDecoder as Iterator>::size_hint`.
`usize` is modelled as 64-bit, so `u64::try_into::<usize>` succeeds
exactly when the value is below `2^64`. -/
def PixelDecoder.size_hint (d : PixelDecoder) : Nat × Option Nat :=
  if d.errored = true ∨ d.remaining = 0 then
    (0, some 0)
  else
    (1, if d.remaining < 2 ^ 64 then some d.remaining else none)

/-- Translated from `src/header.rs`: the channels enumeration. -/
inductive Channels where
  | rgb
  | rgba
deriving DecidableEq, Repr

/-- Translated from `src/header.rs`: the color-space enumeration. -/
inductive ColSpace where
  | srgb
  | linear
deriving DecidableEq, Repr

/-- Translated from `src/header.rs`: the parsed header. -/
structure Header where
  width : Nat
  height : Nat
  channels : Channels
  col_space : ColSpace
deriving DecidableEq, Repr

/-- Translated from `src/header.rs`: `Header::MAGIC = *b"qoif"` as the
four byte values `0x71 0x6F 0x69 0x66`. -/
def Header.MAGIC : List Nat := [0x71, 0x6F, 0x69, 0x66]

/-- Translated from `src/decode.rs`: `HeaderDecodeError`, with the
per-field error payloads of `src/header.rs` (`MagicError` carrying the
offending 4 bytes, `ChannelsError` and `ColSpaceError` carrying the bad
byte) inlined into the variants, as the `From` conversions do. -/
inductive HeaderDecodeError where
  | unexpectedEof
  | ioErr
  | magic (bad_value : List Nat)
  | channels (bad_value : Nat)
  | colSpace (bad_value : Nat)
deriving DecidableEq, Repr

/-- The `From<StreamError> for HeaderDecodeError` conversion of
`src/decode.rs`. -/
def HeaderDecodeError.ofStream : StreamError → HeaderDecodeError
  | .unexpectedEof => .unexpectedEof
  | .ioErr => .ioErr

/-- Translated from `src/header.rs`: `Header::validate_magic`, with the
`MagicError` mapped into `HeaderDecodeError` as in `decode_header`. -/
def Header.validate_magic (m : Nat × Nat × Nat × Nat) : Except HeaderDecodeError Unit :=
  if [m.1, m.2.1, m.2.2.1, m.2.2.2] = Header.MAGIC then
    .ok ()
  else
    .error (.magic [m.1, m.2.1, m.2.2.1, m.2.2.2])

/-- Translated from `src/header.rs`: `TryFrom<u8> for Channels`
(3 is RGB, 4 is RGBA), error mapped into `HeaderDecodeError`. -/
def Channels.tryFrom (value : Nat) : Except HeaderDecodeError Channels :=
  if value = 3 then .ok .rgb
  else if value = 4 then .ok .rgba
  else .error (.channels value)

/-- Translated from `src/header.rs`: `TryFrom<u8> for ColSpace`
(0 is sRGB, 1 is Linear), error mapped into `HeaderDecodeError`. -/
def ColSpace.tryFrom (value : Nat) : Except HeaderDecodeError ColSpace :=
  if value = 0 then .ok .srgb
  else if value = 1 then .ok .linear
  else .error (.colSpace value)

/-- `u32::from_be_bytes`: big-endian assembly of four bytes. -/
def fromBeBytes (b : Nat × Nat × Nat × Nat) : Nat :=
  ((b.1 * 256 + b.2.1) * 256 + b.2.2.1) * 256 + b.2.2.2

/-- Translated from `src/decode.rs`: `Decoder::decode_header`.  Reads and
validates the magic, reads width and height as big-endian `u32`, reads
and validates the channels and color-space bytes, computes
`num_pixels = width as u64 * height as u64` (exact in `Nat`, since both
factors are below `2^32` the `u64` product does not wrap) and returns
the header together with the primed `PixelDecoder`. -/
def decode_header (s : ByteStream) : Except HeaderDecodeError (Header × PixelDecoder) :=
  match read4 s with
  | (.error e, _) => .error (HeaderDecodeError.ofStream e)
  | (.ok m, s) =>
    match Header.validate_magic m with
    | .error e => .error e
    | .ok () =>
      match read4 s with
      | (.error e, _) => .error (HeaderDecodeError.ofStream e)
      | (.ok wb, s) =>
        match read4 s with
        | (.error e, _) => .error (HeaderDecodeError.ofStream e)
        | (.ok hb, s) =>
          match readOne s with
          | (.error e, _) => .error (HeaderDecodeError.ofStream e)
          | (.ok chb, s) =>
            match Channels.tryFrom chb with
            | .error e => .error e
            | .ok channels =>
              match readOne s with
              | (.error e, _) => .error (HeaderDecodeError.ofStream e)
              | (.ok csb, s) =>
                match ColSpace.tryFrom csb with
                | .error e => .error e
                | .ok col_space =>
                  let width := fromBeBytes wb
                  let height := fromBeBytes hb
                  let num_pixels := width * height
                  .ok (⟨width, height, channels, col_space⟩,
                       PixelDecoder.new s num_pixels)

/-- Translated from `src/decode.rs`: `DecodeAllError`.  The source calls
the capacity variant `TooLarge`; the spec names it `CapacityExceeded`. -/
inductive DecodeAllError where
  | unexpectedEof
  | tooLarge
  | ioErr
deriving DecidableEq, Repr

/-- The `From<StreamError> for DecodeAllError` conversion of
`src/decode.rs`. -/
def DecodeAllError.ofStream : StreamError → DecodeAllError
  | .unexpectedEof => .unexpectedEof
  | .ioErr => .ioErr

/-- `usize::MAX` on the modelled 64-bit platform. -/
def USIZE_MAX : Nat := 2 ^ 64 - 1

/-- `isize::MAX` on the modelled 64-bit platform: the largest byte size
for which `Vec::try_reserve_exact` can succeed (larger layouts fail its
deterministic capacity-overflow check). -/
def ISIZE_MAX : Nat := 2 ^ 63 - 1

/-- Translated from `src/decode.rs`: `PixelDecoder::decode_pixels_all`.
`usize::try_from(self.remaining)` failing and `Vec::try_reserve_exact`
failing both map to `TooLarge`; the reserve failure is modelled by its
deterministic capacity-overflow condition, a requested layout larger
than `isize::MAX` bytes (a `Pixel` is 4 bytes).  The buffer is then
filled through `decode_into` with the identity transform and its length
set to the returned count. -/
def PixelDecoder.decode_pixels_all (d : PixelDecoder) :
    Except DecodeAllError (List Pixel) :=
  if USIZE_MAX < d.remaining then .error .tooLarge
  else if ISIZE_MAX < d.remaining * 4 then .error .tooLarge
  else
    match d.decode_into d.remaining id with
    | (.ok _, out, _) => .ok out
    | (.error e, _, _) => .error (DecodeAllError.ofStream e)

/-- Translated from `src/decode.rs`: `PixelDecoder::decode_bytes_all`.
`size = remaining` checked into `usize`, then `checked_mul(N)`, then
`try_reserve_exact(size)` for a byte vector (modelled by its
capacity-overflow condition); the destination slice is declared with
`size` elements of `[u8; N]` and filled through `decode_into`, and the
resulting flat byte buffer has `n * N` bytes. -/
def PixelDecoder.decode_bytes_all (d : PixelDecoder) (N : Nat)
    (transform : Pixel → List Nat) : Except DecodeAllError (List Nat) :=
  if USIZE_MAX < d.remaining then .error .tooLarge
  else if USIZE_MAX < d.remaining * N then .error .tooLarge
  else if ISIZE_MAX < d.remaining * N then .error .tooLarge
  else
    match d.decode_into (d.remaining * N) transform with
    | (.ok _, out, _) => .ok out.flatten
    | (.error e, _, _) => .error (DecodeAllError.ofStream e)

/-- Modelled from the spec: the body of `PixelDecoder::decode_pixels_into`
is unimplemented in `src/decode.rs` (the function is `todo!()`); per the
spec it performs a bounded fill of the caller buffer through the
source's `decode_into` primitive and returns the count written together
with a flag that reports whether the call exhausted all remaining
pixels. -/
def PixelDecoder.decode_pixels_into (d : PixelDecoder) (bufLen : Nat) :
    (Except StreamError (Nat × Bool)) × List Pixel × PixelDecoder :=
  match d.decode_into bufLen id with
  | (.ok n, out, d₁) => (.ok (n, decide (d₁.remaining = 0)), out, d₁)
  | (.error e, out, d₁) => (.error e, out, d₁)

/-- Modelled from the spec: the body of `PixelDecoder::decode_bytes_into`
is unimplemented in `src/decode.rs` (the function is `todo!()`); per the
spec it decodes up to `min(remaining, buffer capacity in pixels)` pixels
(`bufLen / N` whole transformed tuples fit in the byte buffer), applying
the caller transform per pixel, and returns the count written together
with a flag that reports whether the call exhausted all remaining
pixels. -/
def PixelDecoder.decode_bytes_into {T : Type} (d : PixelDecoder)
    (bufLen N : Nat) (transform : Pixel → T) :
    (Except StreamError (Nat × Bool)) × List T × PixelDecoder :=
  match d.decode_into (bufLen / N) transform with
  | (.ok n, out, d₁) => (.ok (n, decide (d₁.remaining = 0)), out, d₁)
  | (.error e, out, d₁) => (.error e, out, d₁)

/-- The opcode dispatch shared (textually duplicated) by
`<PixelDecoder as Iterator>::next` and the loop body of
`PixelDecoder::decode_into` in `src/decode.rs`, factored out for the
proofs: one decode step acting on `stream`, `previous`, `index` and
`run`, ignoring `remaining` and `errored`. -/
def decodeStep (d : PixelDecoder) : (Except StreamError Pixel) × PixelDecoder :=
  if 0 < d.run then
    (.ok d.previous, { d with run := d.run - 1 })
  else
    match readOne d.stream with
    | (.error e, s) => (.error e, { d with stream := s })
    | (.ok b0, s) =>
      if b0 = 0xFE then
        match read3 s with
        | (.error e, s) => (.error e, { d with stream := s })
        | (.ok (r, g, b), s) =>
          let p : Pixel := { d.previous with r := r, g := g, b := b }
          (.ok p, { d with stream := s, previous := p, index := d.index.insert p })
      else if b0 = 0xFF then
        match read4 s with
        | (.error e, s) => (.error e, { d with stream := s })
        | (.ok (r, g, b, a), s) =>
          let p : Pixel := ⟨r, g, b, a⟩
          (.ok p, { d with stream := s, previous := p, index := d.index.insert p })
      else if b0 / 64 = 0 then
        let p := d.index.masked_get b0
        (.ok p, { d with stream := s, previous := p })
      else if b0 / 64 = 1 then
        let p : Pixel := { d.previous with
          r := wadd8 (wsub8 d.previous.r 2) (b0 / 16 % 4)
          g := wadd8 (wsub8 d.previous.g 2) (b0 / 4 % 4)
          b := wadd8 (wsub8 d.previous.b 2) (b0 % 4) }
        (.ok p, { d with stream := s, previous := p, index := d.index.insert p })
      else if b0 / 64 = 2 then
        match readOne s with
        | (.error e, s) => (.error e, { d with stream := s })
        | (.ok b1, s) =>
          let dg := wsub8 (b0 % 64) 32
          let p : Pixel := { d.previous with
            r := wadd8 (wsub8 (wadd8 d.previous.r dg) 8) (b1 / 16 % 16)
            g := wadd8 d.previous.g dg
            b := wadd8 (wsub8 (wadd8 d.previous.b dg) 8) (b1 % 16) }
          (.ok p, { d with stream := s, previous := p, index := d.index.insert p })
      else
        (.ok d.previous, { d with stream := s, run := b0 % 64 })

theorem decodeIntoLoop_succ {T : Type} (f : Pixel → T) (k : Nat) (d : PixelDecoder) :
    decodeIntoLoop f (k + 1) d =
      match decodeStep d with
      | (.error e, d₁) => (.error e, [], d₁)
      | (.ok p, d₁) =>
        let r := decodeIntoLoop f k d₁
        (r.1, f p :: r.2.1, r.2.2) := by
  simp only [decodeIntoLoop, decodeStep]
  by_cases hrun : 0 < d.run
  · simp only [hrun, if_true]
  · simp only [hrun, if_false]
    rcases hr : readOne d.stream with ⟨e | b0, s⟩ <;> simp only [hr]
    by_cases h254 : b0 = 254
    · rcases h3 : read3 s with ⟨e | ⟨r, g, b⟩, s2⟩ <;> simp [h254, h3]
    · by_cases h255 : b0 = 255
      · rcases h4 : read4 s with ⟨e | ⟨r, g, b, a⟩, s2⟩ <;> simp [h254, h255, h4]
      · by_cases hi : b0 / 64 = 0
        · simp [h254, h255, hi]
        · by_cases hd : b0 / 64 = 1
          · simp [h254, h255, hi, hd]
          · by_cases hl : b0 / 64 = 2
            · rcases h1 : readOne s with ⟨e | b1, s2⟩ <;> simp [h254, h255, hi, hd, hl, h1]
            · simp [h254, h255, hi, hd, hl]

theorem next_eq_decodeStep (d : PixelDecoder) (h1 : d.errored = false)
    (h2 : d.remaining ≠ 0) :
    d.next =
      match decodeStep { d with remaining := d.remaining - 1 } with
      | (.error e, d₁) => (some (.error e), { d₁ with errored := true })
      | (.ok p, d₁) => (some (.ok p), d₁) := by
  simp only [PixelDecoder.next, decodeStep, h1, h2, Bool.false_eq_true, false_or, if_false]
  by_cases hrun : 0 < d.run
  · simp only [hrun, if_true]
  · simp only [hrun, if_false]
    rcases hr : readOne d.stream with ⟨e | b0, s⟩ <;> simp only [hr]
    by_cases h254 : b0 = 254
    · rcases h3 : read3 s with ⟨e | ⟨r, g, b⟩, s2⟩ <;> simp [h254, h3]
    · by_cases h255 : b0 = 255
      · rcases h4 : read4 s with ⟨e | ⟨r, g, b, a⟩, s2⟩ <;> simp [h254, h255, h4]
      · by_cases hi : b0 / 64 = 0
        · simp [h254, h255, hi]
        · by_cases hd : b0 / 64 = 1
          · simp [h254, h255, hi, hd]
          · by_cases hl : b0 / 64 = 2
            · rcases h1 : readOne s with ⟨e | b1, s2⟩ <;> simp [h254, h255, hi, hd, hl, h1]
            · simp [h254, h255, hi, hd, hl]

theorem decodeStep_set_remaining (d : PixelDecoder) (x : Nat) :
    decodeStep { d with remaining := x } =
      ((decodeStep d).1, { (decodeStep d).2 with remaining := x }) := by
  simp only [decodeStep]
  by_cases hrun : 0 < d.run
  · simp only [hrun, if_true]
  · simp only [hrun, if_false]
    rcases hr : readOne d.stream with ⟨e | b0, s⟩ <;> simp only [hr]
    by_cases h254 : b0 = 254
    · rcases h3 : read3 s with ⟨e | ⟨r, g, b⟩, s2⟩ <;> simp [h254, h3]
    · by_cases h255 : b0 = 255
      · rcases h4 : read4 s with ⟨e | ⟨r, g, b, a⟩, s2⟩ <;> simp [h254, h255, h4]
      · by_cases hi : b0 / 64 = 0
        · simp [h254, h255, hi]
        · by_cases hd : b0 / 64 = 1
          · simp [h254, h255, hi, hd]
          · by_cases hl : b0 / 64 = 2
            · rcases h1 : readOne s with ⟨e | b1, s2⟩ <;> simp [h254, h255, hi, hd, hl, h1]
            · simp [h254, h255, hi, hd, hl]

theorem decodeStep_keeps (d : PixelDecoder) :
    (decodeStep d).2.remaining = d.remaining ∧ (decodeStep d).2.errored = d.errored := by
  simp only [decodeStep]
  by_cases hrun : 0 < d.run
  · simp [hrun]
  · simp only [hrun, if_false]
    rcases hr : readOne d.stream with ⟨e | b0, s⟩ <;> simp only [hr]
    · simp
    by_cases h254 : b0 = 254
    · rcases h3 : read3 s with ⟨e | ⟨r, g, b⟩, s2⟩ <;> simp [h254, h3]
    · by_cases h255 : b0 = 255
      · rcases h4 : read4 s with ⟨e | ⟨r, g, b, a⟩, s2⟩ <;> simp [h254, h255, h4]
      · by_cases hi : b0 / 64 = 0
        · simp [h254, h255, hi]
        · by_cases hd : b0 / 64 = 1
          · simp [h254, h255, hi, hd]
          · by_cases hl : b0 / 64 = 2
            · rcases h1 : readOne s with ⟨e | b1, s2⟩ <;> simp [h254, h255, hi, hd, hl, h1]
            · simp [h254, h255, hi, hd, hl]

theorem decodeIntoLoop_keeps {T : Type} (f : Pixel → T) (k : Nat) (d : PixelDecoder) :
    (decodeIntoLoop f k d).2.2.remaining = d.remaining ∧
      (decodeIntoLoop f k d).2.2.errored = d.errored := by
  induction k generalizing d with
  | zero => exact ⟨rfl, rfl⟩
  | succ k ih =>
    rw [decodeIntoLoop_succ]
    rcases hs : decodeStep d with ⟨e | p, d₁⟩
    · have hk := decodeStep_keeps d
      rw [hs] at hk
      simpa using hk
    · have hk := decodeStep_keeps d
      rw [hs] at hk
      simp only []
      rcases ih d₁ with ⟨ih1, ih2⟩
      exact ⟨ih1.trans hk.1, ih2.trans hk.2⟩

theorem decodeIntoLoop_length {T : Type} (f : Pixel → T) (k : Nat) (d : PixelDecoder)
    (out : List T) (d₁ : PixelDecoder)
    (h : decodeIntoLoop f k d = (.ok (), out, d₁)) : out.length = k := by
  induction k generalizing d out with
  | zero =>
    simp only [decodeIntoLoop] at h
    injection h with h1 h2
    injection h2 with h2 h3
    simp [← h2]
  | succ k ih =>
    rw [decodeIntoLoop_succ] at h
    rcases hs : decodeStep d with ⟨e | p, d₁0⟩ <;> rw [hs] at h
    · simp at h
    · simp only [] at h
      injection h with h1 h2
      injection h2 with h2 h3
      rcases hrec : decodeIntoLoop f k d₁0 with ⟨r1, rout, rd⟩
      rw [hrec] at h1 h2 h3
      simp only [] at h1 h2 h3
      subst h2
      simp only [List.length_cons]
      have := ih d₁0 rout (by rw [hrec, ← h1, h3])
      omega

theorem decodeIntoLoop_set_remaining {T : Type} (f : Pixel → T) (k : Nat)
    (d : PixelDecoder) (x : Nat) :
    decodeIntoLoop f k { d with remaining := x } =
      ((decodeIntoLoop f k d).1, (decodeIntoLoop f k d).2.1,
        { (decodeIntoLoop f k d).2.2 with remaining := x }) := by
  induction k generalizing d with
  | zero => rfl
  | succ k ih =>
    rw [decodeIntoLoop_succ, decodeIntoLoop_succ, decodeStep_set_remaining]
    rcases hs : decodeStep d with ⟨e | p, d₁⟩ <;> simp only [ih]

theorem decodeIntoLoop_map {T : Type} (f : Pixel → T) (k : Nat) (d : PixelDecoder) :
    decodeIntoLoop f k d =
      ((decodeIntoLoop id k d).1, (decodeIntoLoop id k d).2.1.map f,
        (decodeIntoLoop id k d).2.2) := by
  induction k generalizing d with
  | zero => rfl
  | succ k ih =>
    rw [decodeIntoLoop_succ, decodeIntoLoop_succ]
    rcases hs : decodeStep d with ⟨e | p, d₁⟩
    · rfl
    · simp only [ih, List.map_cons, id]

theorem PixelDecoder.setr_setr (d : PixelDecoder) (x y : Nat) :
    ({ { d with remaining := x } with remaining := y } : PixelDecoder) =
      { d with remaining := y } := rfl

theorem PixelDecoder.setr_self (d : PixelDecoder) :
    ({ d with remaining := d.remaining } : PixelDecoder) = d := rfl

theorem next_stuck (d : PixelDecoder) (h : d.errored = true ∨ d.remaining = 0) :
    d.next = (none, d) := by
  simp [PixelDecoder.next, h]

theorem pulls_stuck (k : Nat) (d : PixelDecoder)
    (h : d.errored = true ∨ d.remaining = 0) : pulls k d = ([], d) := by
  cases k with
  | zero => rfl
  | succ k => simp [pulls, next_stuck d h]

theorem decodeIntoLoop_to_pulls (k : Nat) (d : PixelDecoder) (out : List Pixel)
    (d₁ : PixelDecoder) (herr : d.errored = false) (hk : k ≤ d.remaining)
    (h : decodeIntoLoop id k d = (.ok (), out, d₁)) :
    pulls k d = (out.map Except.ok, { d₁ with remaining := d.remaining - k }) := by
  induction k generalizing d out d₁ with
  | zero =>
    simp only [decodeIntoLoop] at h
    injection h with h1 h2
    injection h2 with h2 h3
    subst h2; subst h3
    simp [pulls, PixelDecoder.setr_self]
  | succ k ih =>
    rw [decodeIntoLoop_succ] at h
    rcases hs : decodeStep d with ⟨e | p, dnext⟩ <;> rw [hs] at h
    · simp at h
    · simp only [] at h
      rcases hrec : decodeIntoLoop id k dnext with ⟨r1, rout, rd⟩
      rw [hrec] at h
      injection h with h1 h2
      injection h2 with h2 h3
      subst h2; subst h3
      have hkeep := decodeStep_keeps d
      rw [hs] at hkeep
      simp only [pulls]
      rw [next_eq_decodeStep d herr (by omega), decodeStep_set_remaining, hs]
      simp only []
      have hdd1 : ({ dnext with remaining := d.remaining - 1 } : PixelDecoder).errored = false := by
        simp only []
        exact hkeep.2.symm ▸ herr
      have hdd2 : k ≤ ({ dnext with remaining := d.remaining - 1 } : PixelDecoder).remaining := by
        simp only []
        omega
      have hloop : decodeIntoLoop id k { dnext with remaining := d.remaining - 1 } =
          (.ok (), rout, { rd with remaining := d.remaining - 1 }) := by
        rw [decodeIntoLoop_set_remaining, hrec, ← h1]
      have := ih { dnext with remaining := d.remaining - 1 } rout
        { rd with remaining := d.remaining - 1 } hdd1 hdd2 hloop
      rw [this]
      simp only [PixelDecoder.setr_setr, List.map_cons]
      have harith : d.remaining - 1 - k = d.remaining - (k + 1) := by omega
      rw [harith]
      rfl

theorem decodeStep_run (d : PixelDecoder) (h : 0 < d.run) :
    decodeStep d = (.ok d.previous, { d with run := d.run - 1 }) := by
  simp [decodeStep, h]

theorem decodeStep_runop (d : PixelDecoder) (b : Nat) (rest : ByteStream)
    (hrun : d.run = 0) (hs : d.stream = .byte b :: rest)
    (hb1 : 192 ≤ b) (hb2 : b ≤ 253) :
    decodeStep d = (.ok d.previous, { d with stream := rest, run := b % 64 }) := by
  have hbm : b % 256 = b := Nat.mod_eq_of_lt (by omega)
  have h1 : ¬(b = 254) := by omega
  have h2 : ¬(b = 255) := by omega
  have h3 : b / 64 = 3 := by omega
  simp [decodeStep, hrun, hs, readOne, hbm, h1, h2, h3]

theorem decodeStep_indexop (d : PixelDecoder) (b : Nat) (rest : ByteStream)
    (hrun : d.run = 0) (hs : d.stream = .byte b :: rest) (hb : b < 64) :
    decodeStep d =
      (.ok (d.index.masked_get b),
        { d with stream := rest, previous := d.index.masked_get b }) := by
  have hbm : b % 256 = b := Nat.mod_eq_of_lt (by omega)
  have h1 : ¬(b = 254) := by omega
  have h2 : ¬(b = 255) := by omega
  have h3 : b / 64 = 0 := by omega
  simp [decodeStep, hrun, hs, readOne, hbm, h1, h2, h3]

theorem pulls_drain (j : Nat) (d : PixelDecoder) (herr : d.errored = false)
    (hj : j ≤ d.run) (hr : j ≤ d.remaining) :
    pulls j d = (List.replicate j (.ok d.previous),
      { d with run := d.run - j, remaining := d.remaining - j }) := by
  induction j generalizing d with
  | zero => rfl
  | succ j ih =>
    simp only [pulls]
    rw [next_eq_decodeStep d herr (by omega), decodeStep_set_remaining,
      decodeStep_run d (by omega)]
    simp only []
    have := ih { d with run := d.run - 1, remaining := d.remaining - 1 }
      (by simp only []; exact herr) (by simp only []; omega) (by simp only []; omega)
    rw [this]
    simp only [List.replicate_succ]
    have h1 : d.run - 1 - j = d.run - (j + 1) := by omega
    have h2 : d.remaining - 1 - j = d.remaining - (j + 1) := by omega
    rw [h1, h2]

theorem decodeIntoLoop_drain {T : Type} (f : Pixel → T) (j : Nat) (d : PixelDecoder)
    (hj : j ≤ d.run) :
    decodeIntoLoop f j d =
      (.ok (), List.replicate j (f d.previous), { d with run := d.run - j }) := by
  induction j generalizing d with
  | zero => rfl
  | succ j ih =>
    rw [decodeIntoLoop_succ, decodeStep_run d (by omega)]
    simp only []
    have := ih { d with run := d.run - 1 } (by simp only []; omega)
    rw [this]
    simp only [List.replicate_succ]
    have h1 : d.run - 1 - j = d.run - (j + 1) := by omega
    rw [h1]

theorem next_error_sets (d d₂ : PixelDecoder) (e : StreamError)
    (h : d.next = (some (.error e), d₂)) : d₂.errored = true := by
  by_cases hst : d.errored = true ∨ d.remaining = 0
  · rw [next_stuck d hst] at h
    simp at h
  · push_neg at hst
    rw [next_eq_decodeStep d (by simpa using hst.1) hst.2] at h
    rcases hs : decodeStep { d with remaining := d.remaining - 1 } with ⟨e2 | p, d₁⟩ <;>
      rw [hs] at h
    · simp only [] at h
      injection h with h1 h2
      rw [← h2]
    · simp at h

theorem pixel_hash_lt (p : Pixel) : pixel_hash p < 64 :=
  Nat.mod_lt _ (by norm_num)

theorem PixelIndex.insert_length (idx : PixelIndex) (p : Pixel) :
    (idx.insert p).length = idx.length := by
  simp [PixelIndex.insert, List.length_set]

theorem PixelIndex.masked_get_insert_self (idx : PixelIndex) (p : Pixel) (b : Nat)
    (hlen : idx.length = 64) (hb : b % 64 = pixel_hash p) :
    (idx.insert p).masked_get b = p := by
  have hlt : pixel_hash p < idx.length := by rw [hlen]; exact pixel_hash_lt p
  simp [PixelIndex.insert, PixelIndex.masked_get, hb, List.getD_eq_getElem?_getD,
    List.getElem?_set_self', List.getElem?_eq_getElem hlt]

theorem PixelIndex.masked_get_insert_other (idx : PixelIndex) (q : Pixel) (b : Nat)
    (hb : b % 64 ≠ pixel_hash q) :
    (idx.insert q).masked_get b = idx.masked_get b := by
  simp [PixelIndex.insert, PixelIndex.masked_get, List.getD_eq_getElem?_getD,
    List.getElem?_set_ne (Ne.symm hb)]

theorem PixelIndex.masked_get_foldl_insert (idx : PixelIndex) (qs : List Pixel) (b : Nat)
    (h : ∀ q ∈ qs, b % 64 ≠ pixel_hash q) :
    (qs.foldl PixelIndex.insert idx).masked_get b = idx.masked_get b := by
  induction qs generalizing idx with
  | nil => rfl
  | cons q qs ih =>
    simp only [List.foldl_cons]
    rw [ih (idx.insert q) fun x hx => h x (List.mem_cons_of_mem q hx)]
    exact PixelIndex.masked_get_insert_other idx q b (h q (List.mem_cons_self q qs))

/-- C1: for every caller-supplied buffer and output transform, the
bounded-fill operations (`decode_pixels_into` and `decode_bytes_into`)
decode exactly `min (remaining, buffer capacity in pixels)` pixels into
the buffer in order, applying the transform per pixel, and return both
the count of pixels written and a flag that is true if and only if the
call exhausted all remaining pixels of the image. -/
theorem decode_into_bounded_fill_spec :
    (∀ (d : PixelDecoder) (bufLen n : Nat) (exh : Bool) (out : List Pixel)
        (d₁ : PixelDecoder),
        d.decode_pixels_into bufLen = (.ok (n, exh), out, d₁) →
        n = min d.remaining bufLen ∧ out.length = n ∧
          ((exh = true) ↔ n = d.remaining)) ∧
    (∀ (T : Type) (f : Pixel → T) (N : Nat) (d : PixelDecoder) (bufLen : Nat),
        d.decode_bytes_into bufLen N f =
          ((d.decode_pixels_into (bufLen / N)).1,
            (d.decode_pixels_into (bufLen / N)).2.1.map f,
            (d.decode_pixels_into (bufLen / N)).2.2)) := by
  constructor
  · intro d bufLen n exh out d₁ h
    simp only [PixelDecoder.decode_pixels_into, PixelDecoder.decode_into] at h
    rcases hL : decodeIntoLoop id (min d.remaining bufLen) d with ⟨res, lout, ld⟩
    rw [hL] at h
    cases res with
    | error e => simp at h
    | ok u =>
      cases u
      simp only [] at h
      injection h with h1 h2
      injection h2 with h2 h3
      injection h1 with h1
      injection h1 with h1a h1b
      subst h2
      have hlen := decodeIntoLoop_length id (min d.remaining bufLen) d lout ld hL
      refine ⟨h1a.symm, ?_, ?_⟩
      · rw [hlen, h1a]
      · rw [← h1b]
        have hmin : min d.remaining bufLen ≤ d.remaining := Nat.min_le_left _ _
        simp only [decide_eq_true_eq]
        constructor
        · intro hz
          omega
        · intro hz
          omega
  · intro T f N d bufLen
    simp only [PixelDecoder.decode_bytes_into, PixelDecoder.decode_pixels_into,
      PixelDecoder.decode_into]
    rw [decodeIntoLoop_map f]
    rcases hL : decodeIntoLoop id (min d.remaining (bufLen / N)) d with ⟨res, lout, ld⟩
    cases res with
    | error e => simp
    | ok u => simp

theorem decode_into_bounded_fill_spec_witness :
    3 = min 5 3 ∧ (List.replicate 3 Pixel.BLACK).length = 3 ∧
      ((false = true) ↔ 3 = 5) :=
  decode_into_bounded_fill_spec.1 (PixelDecoder.new [.byte 0xC2] 5) 3 3 false
    (List.replicate 3 Pixel.BLACK) ⟨[], Pixel.BLACK, PixelIndex.new, 2, 0, false⟩
    (by decide)

/-- C2 (counterexample to the claim as stated): a pull of the iterator that
surfaces an error produces no pixel, yet `remaining` decreases from 1 to 0,
because `next` decrements `remaining` before reading the opcode byte. -/
theorem next_error_decrements_remaining :
    (PixelDecoder.next ⟨[], Pixel.BLACK, PixelIndex.new, 1, 0, false⟩).1 =
        some (.error .unexpectedEof) ∧
      (PixelDecoder.next ⟨[], Pixel.BLACK, PixelIndex.new, 1, 0, false⟩).2.remaining ≠
        (⟨[], Pixel.BLACK, PixelIndex.new, 1, 0, false⟩ : PixelDecoder).remaining := by
  decide

/-- C2 (amended): for the bounded fill (`decode_into`), `remaining`
decreases by exactly the returned count of pixels produced on success and
is unchanged when the call returns an error; for the iterator, every pull
that returns an item (a pixel or an error) decreases `remaining` by
exactly one — in particular an erroring pull decreases it by one while
producing no pixel — and a pull that returns `none` leaves it unchanged;
`remaining` never increases. -/
theorem remaining_decrease_bookkeeping :
    (∀ (T : Type) (f : Pixel → T) (d : PixelDecoder) (len n : Nat) (out : List T)
        (d₁ : PixelDecoder),
        d.decode_into len f = (.ok n, out, d₁) →
        n ≤ d.remaining ∧ n = out.length ∧ d₁.remaining = d.remaining - n) ∧
    (∀ (T : Type) (f : Pixel → T) (d : PixelDecoder) (len : Nat) (e : StreamError)
        (out : List T) (d₁ : PixelDecoder),
        d.decode_into len f = (.error e, out, d₁) → d₁.remaining = d.remaining) ∧
    (∀ d : PixelDecoder,
        (d.next.1 = none → d.next.2.remaining = d.remaining) ∧
        ((∃ x, d.next.1 = some x) → d.next.2.remaining = d.remaining - 1) ∧
        d.next.2.remaining ≤ d.remaining) := by
  refine ⟨?_, ?_, ?_⟩
  · intro T f d len n out d₁ h
    simp only [PixelDecoder.decode_into] at h
    rcases hL : decodeIntoLoop f (min d.remaining len) d with ⟨res, lout, ld⟩
    rw [hL] at h
    cases res with
    | error e => simp at h
    | ok u =>
      cases u
      simp only [] at h
      injection h with h1 h2
      injection h2 with h2 h3
      injection h1 with h1
      subst h2
      have hlen := decodeIntoLoop_length f (min d.remaining len) d lout ld hL
      refine ⟨?_, ?_, ?_⟩
      · rw [← h1]; exact Nat.min_le_left _ _
      · rw [hlen, h1]
      · rw [← h3, ← h1]
  · intro T f d len e out d₁ h
    simp only [PixelDecoder.decode_into] at h
    rcases hL : decodeIntoLoop f (min d.remaining len) d with ⟨res, lout, ld⟩
    rw [hL] at h
    cases res with
    | ok u => cases u; simp at h
    | error e2 =>
      simp only [] at h
      injection h with h1 h2
      injection h2 with h2 h3
      have hkeep := (decodeIntoLoop_keeps f (min d.remaining len) d).1
      rw [hL] at hkeep
      rw [← h3]
      exact hkeep
  · intro d
    by_cases hst : d.errored = true ∨ d.remaining = 0
    · rw [next_stuck d hst]
      refine ⟨fun _ => rfl, ?_, Nat.le_refl _⟩
      rintro ⟨x, hx⟩
      simp at hx
    · push_neg at hst
      rw [next_eq_decodeStep d (by simpa using hst.1) hst.2]
      have hkeep := decodeStep_keeps { d with remaining := d.remaining - 1 }
      rcases hs : decodeStep { d with remaining := d.remaining - 1 } with ⟨res, d₁⟩
      rw [hs] at hkeep
      cases res with
      | error e =>
        simp only []
        exact ⟨fun hc => by simp at hc, fun _ => hkeep.1, by rw [hkeep.1]; exact Nat.sub_le _ _⟩
      | ok p =>
        simp only []
        exact ⟨fun hc => by simp at hc, fun _ => hkeep.1, by rw [hkeep.1]; exact Nat.sub_le _ _⟩

theorem remaining_decrease_bookkeeping_witness :
    (3 ≤ 5 ∧ 3 = (List.replicate 3 Pixel.BLACK).length ∧
      (⟨[], Pixel.BLACK, PixelIndex.new, 2, 0, false⟩ : PixelDecoder).remaining = 5 - 3) ∧
    ((PixelDecoder.new [] 1).next.2.remaining = 1 - 1) :=
  ⟨(remaining_decrease_bookkeeping.1 Pixel id (PixelDecoder.new [.byte 0xC2] 5) 3 3
      (List.replicate 3 Pixel.BLACK) ⟨[], Pixel.BLACK, PixelIndex.new, 2, 0, false⟩
      (by decide)),
   ((remaining_decrease_bookkeeping.2.2 (PixelDecoder.new [] 1)).2.1
      ⟨.error .unexpectedEof, by decide⟩)⟩

/-- C3: decoding `n` pixels through the buffer-based path (`decode_into`
with an `n`-element buffer, succeeding with `n` pixels) yields the same
pixel sequence and the same final decoder state — `previous`, cache
(`index`), `run` and `remaining`, and also `stream` and `errored` — as
`n` pulls of the pixel-at-a-time iterator on the same fresh decoder:
the two textually duplicated dispatch copies act identically. -/
theorem buffer_path_refines_iterator :
    ∀ (d : PixelDecoder) (n : Nat) (out : List Pixel) (d₁ : PixelDecoder),
      d.errored = false → d.decode_into n id = (.ok n, out, d₁) →
      pulls n d = (out.map Except.ok, d₁) := by
  intro d n out d₁ herr h
  simp only [PixelDecoder.decode_into] at h
  rcases hL : decodeIntoLoop id (min d.remaining n) d with ⟨res, lout, ld⟩
  rw [hL] at h
  cases res with
  | error e => simp at h
  | ok u =>
    cases u
    simp only [] at h
    injection h with h1 h2
    injection h2 with h2 h3
    injection h1 with h1
    subst h2
    have hn : n ≤ d.remaining := by
      by_contra hc
      push_neg at hc
      omega
    have hmin : min d.remaining n = n := by omega
    rw [hmin] at hL
    have := decodeIntoLoop_to_pulls n d lout ld herr hn hL
    rw [this, ← h3, hmin]

theorem buffer_path_refines_iterator_witness :
    pulls 3 (PixelDecoder.new [.byte 0xC2] 5) =
      ((List.replicate 3 Pixel.BLACK).map Except.ok,
        ⟨[], Pixel.BLACK, PixelIndex.new, 2, 0, false⟩) :=
  buffer_path_refines_iterator (PixelDecoder.new [.byte 0xC2] 5) 3
    (List.replicate 3 Pixel.BLACK) ⟨[], Pixel.BLACK, PixelIndex.new, 2, 0, false⟩
    (by decide) (by decide)

/-- C4 (counterexample to the claim as stated): 0xFF has top two bits 11
and low six bits 63, but it is not dispatched as a run opcode — it is the
full-RGBA opcode, so decoding does not emit 64 copies of `previous`
(the first produced pixel is already the literal (1,2,3,4), not
`previous` = BLACK). -/
theorem topbits11_not_all_run_opcodes :
    (0xFF : Nat) / 64 = 3 ∧ (0xFF : Nat) % 64 = 63 ∧
      (pulls 64 (PixelDecoder.new
          [.byte 0xFF, .byte 1, .byte 2, .byte 3, .byte 4] 64)).1 ≠
        List.replicate 64 (Except.ok Pixel.BLACK) := by
  decide

/-- C4 (amended): the run opcodes are exactly the bytes `0xC0 + k` with
`k ≤ 61` (top two bits 11, excluding 0xFE and 0xFF which dispatch as
full-RGB/full-RGBA); such an opcode emits exactly `k+1` pixels equal to
the pre-run `previous` — one from the opcode's own step plus `k` drained
run steps — and the `k` drained steps consume zero bytes from the byte
source (only the opcode byte itself is consumed), in both the iterator
path and the buffer-fill loop. -/
theorem run_opcode_emits_run :
    ∀ (k : Nat) (d : PixelDecoder) (rest : ByteStream),
      k ≤ 61 → d.errored = false → d.run = 0 → d.stream = .byte (192 + k) :: rest →
      k + 1 ≤ d.remaining →
      pulls (k + 1) d =
        (List.replicate (k + 1) (Except.ok d.previous),
          { d with stream := rest, run := 0, remaining := d.remaining - (k + 1) }) ∧
      decodeIntoLoop id (k + 1) d =
        (.ok (), List.replicate (k + 1) d.previous,
          { d with stream := rest, run := 0 }) := by
  intro k d rest hk herr hrun hs hrem
  have hstep := decodeStep_runop d (192 + k) rest hrun hs (by omega) (by omega)
  have hk64 : (192 + k) % 64 = k := by omega
  rw [hk64] at hstep
  constructor
  · simp only [pulls]
    rw [next_eq_decodeStep d herr (by omega), decodeStep_set_remaining, hstep]
    simp only []
    have hdrain := pulls_drain k
      { d with stream := rest, run := k, remaining := d.remaining - 1 }
      (by simp only []; exact herr) (by simp only []; omega) (by simp only []; omega)
    simp only [] at hdrain
    rw [hdrain]
    simp only [List.replicate_succ]
    have h1 : d.remaining - 1 - k = d.remaining - (k + 1) := by omega
    have h2 : k - k = 0 := by omega
    rw [h1, h2]
  · rw [decodeIntoLoop_succ, hstep]
    simp only []
    have hdrain := decodeIntoLoop_drain id k
      { d with stream := rest, run := k } (by simp only []; omega)
    rw [hdrain]
    simp only [List.replicate_succ, id]
    have h2 : k - k = 0 := by omega
    rw [h2]

theorem run_opcode_emits_run_witness :
    pulls 3 (PixelDecoder.new [.byte 194, .byte 9] 5) =
      (List.replicate 3 (Except.ok Pixel.BLACK),
        { PixelDecoder.new [.byte 194, .byte 9] 5 with
            stream := [.byte 9], run := 0, remaining := 5 - 3 }) ∧
    decodeIntoLoop id 3 (PixelDecoder.new [.byte 194, .byte 9] 5) =
      (.ok (), List.replicate 3 Pixel.BLACK,
        { PixelDecoder.new [.byte 194, .byte 9] 5 with stream := [.byte 9], run := 0 }) :=
  run_opcode_emits_run 2 (PixelDecoder.new [.byte 194, .byte 9] 5) [.byte 9]
    (by decide) (by decide) (by decide) (by decide) (by decide)

theorem fromBeBytes_lt (b0 b1 b2 b3 : Nat) (h0 : b0 < 256) (h1 : b1 < 256)
    (h2 : b2 < 256) (h3 : b3 < 256) : fromBeBytes (b0, b1, b2, b3) < 2 ^ 32 := by
  simp only [fromBeBytes]
  omega

/-- C5: for every header whose 4 magic bytes equal the magic constant,
whose channels byte is in 3,4 and whose color-space byte is in 0,1,
`decode_header` succeeds, returns a `Header` whose width and height
equal the big-endian u32 values encoded at offsets 4 and 8, and primes
the `PixelDecoder` with `remaining = width * height`; both factors are
below `2^32`, so the product is below `2^64` and the `u64`
multiplication never overflows. -/
theorem decode_header_valid_spec :
    ∀ (w0 w1 w2 w3 h0 h1 h2 h3 ch cs : Nat) (rest : ByteStream),
      w0 < 256 → w1 < 256 → w2 < 256 → w3 < 256 →
      h0 < 256 → h1 < 256 → h2 < 256 → h3 < 256 →
      (ch = 3 ∨ ch = 4) → (cs = 0 ∨ cs = 1) →
      decode_header (.byte 0x71 :: .byte 0x6F :: .byte 0x69 :: .byte 0x66 ::
          .byte w0 :: .byte w1 :: .byte w2 :: .byte w3 ::
          .byte h0 :: .byte h1 :: .byte h2 :: .byte h3 ::
          .byte ch :: .byte cs :: rest) =
        .ok (⟨fromBeBytes (w0, w1, w2, w3), fromBeBytes (h0, h1, h2, h3),
              (if ch = 3 then .rgb else .rgba), (if cs = 0 then .srgb else .linear)⟩,
          PixelDecoder.new rest
            (fromBeBytes (w0, w1, w2, w3) * fromBeBytes (h0, h1, h2, h3))) ∧
      fromBeBytes (w0, w1, w2, w3) * fromBeBytes (h0, h1, h2, h3) < 2 ^ 64 := by
  intro w0 w1 w2 w3 h0 h1 h2 h3 ch cs rest
  intro hw0 hw1 hw2 hw3 hh0 hh1 hh2 hh3 hch hcs
  constructor
  · rcases hch with rfl | rfl <;> rcases hcs with rfl | rfl <;>
      simp [decode_header, read4, read3, readOne, Header.validate_magic, Header.MAGIC,
        Channels.tryFrom, ColSpace.tryFrom, fromBeBytes,
        Nat.mod_eq_of_lt hw0, Nat.mod_eq_of_lt hw1, Nat.mod_eq_of_lt hw2,
        Nat.mod_eq_of_lt hw3, Nat.mod_eq_of_lt hh0, Nat.mod_eq_of_lt hh1,
        Nat.mod_eq_of_lt hh2, Nat.mod_eq_of_lt hh3]
  · have hw := fromBeBytes_lt w0 w1 w2 w3 hw0 hw1 hw2 hw3
    have hh := fromBeBytes_lt h0 h1 h2 h3 hh0 hh1 hh2 hh3
    calc fromBeBytes (w0, w1, w2, w3) * fromBeBytes (h0, h1, h2, h3) ≤
        (2 ^ 32 - 1) * (2 ^ 32 - 1) := Nat.mul_le_mul (by omega) (by omega)
      _ < 2 ^ 64 := by norm_num

theorem decode_header_valid_spec_witness :
    decode_header [.byte 0x71, .byte 0x6F, .byte 0x69, .byte 0x66,
        .byte 0, .byte 0, .byte 0, .byte 2, .byte 0, .byte 0, .byte 0, .byte 1,
        .byte 4, .byte 0] =
      .ok (⟨fromBeBytes (0, 0, 0, 2), fromBeBytes (0, 0, 0, 1),
            (if (4 : Nat) = 3 then .rgb else .rgba),
            (if (0 : Nat) = 0 then .srgb else .linear)⟩,
        PixelDecoder.new [] (fromBeBytes (0, 0, 0, 2) * fromBeBytes (0, 0, 0, 1))) ∧
      fromBeBytes (0, 0, 0, 2) * fromBeBytes (0, 0, 0, 1) < 2 ^ 64 :=
  decode_header_valid_spec 0 0 0 2 0 0 0 1 4 0 []
    (by decide) (by decide) (by decide) (by decide) (by decide) (by decide)
    (by decide) (by decide) (Or.inr rfl) (Or.inl rfl)

/-- C6: each of the four invalid-field cases fails with its own distinct
error variant, and no pixels are produced (no `PixelDecoder` is
returned): magic bytes differing from the constant give the bad-magic
error carrying the offending 4 bytes; a channels byte outside 3,4 gives
the bad-channels error carrying the byte; a color-space byte outside
0,1 gives the bad-color-space error carrying the byte; a header
truncated before 14 bytes gives the unexpected-end-of-data error. -/
theorem decode_header_invalid_spec :
    (∀ (m0 m1 m2 m3 : Nat) (rest : ByteStream),
        m0 < 256 → m1 < 256 → m2 < 256 → m3 < 256 →
        [m0, m1, m2, m3] ≠ Header.MAGIC →
        decode_header (.byte m0 :: .byte m1 :: .byte m2 :: .byte m3 :: rest) =
          .error (.magic [m0, m1, m2, m3])) ∧
    (∀ (w0 w1 w2 w3 h0 h1 h2 h3 ch : Nat) (rest : ByteStream),
        w0 < 256 → w1 < 256 → w2 < 256 → w3 < 256 →
        h0 < 256 → h1 < 256 → h2 < 256 → h3 < 256 → ch < 256 →
        ch ≠ 3 → ch ≠ 4 →
        decode_header (.byte 0x71 :: .byte 0x6F :: .byte 0x69 :: .byte 0x66 ::
            .byte w0 :: .byte w1 :: .byte w2 :: .byte w3 ::
            .byte h0 :: .byte h1 :: .byte h2 :: .byte h3 :: .byte ch :: rest) =
          .error (.channels ch)) ∧
    (∀ (w0 w1 w2 w3 h0 h1 h2 h3 ch cs : Nat) (rest : ByteStream),
        w0 < 256 → w1 < 256 → w2 < 256 → w3 < 256 →
        h0 < 256 → h1 < 256 → h2 < 256 → h3 < 256 → cs < 256 →
        (ch = 3 ∨ ch = 4) → cs ≠ 0 → cs ≠ 1 →
        decode_header (.byte 0x71 :: .byte 0x6F :: .byte 0x69 :: .byte 0x66 ::
            .byte w0 :: .byte w1 :: .byte w2 :: .byte w3 ::
            .byte h0 :: .byte h1 :: .byte h2 :: .byte h3 ::
            .byte ch :: .byte cs :: rest) =
          .error (.colSpace cs)) ∧
    (∀ (w0 w1 w2 w3 h0 h1 h2 h3 ch cs t : Nat),
        w0 < 256 → w1 < 256 → w2 < 256 → w3 < 256 →
        h0 < 256 → h1 < 256 → h2 < 256 → h3 < 256 →
        (ch = 3 ∨ ch = 4) → t < 14 →
        decode_header (List.take t
            [.byte 0x71, .byte 0x6F, .byte 0x69, .byte 0x66,
             .byte w0, .byte w1, .byte w2, .byte w3,
             .byte h0, .byte h1, .byte h2, .byte h3, .byte ch, .byte cs]) =
          .error .unexpectedEof) := by
  refine ⟨?_, ?_, ?_, ?_⟩
  · intro m0 m1 m2 m3 rest hm0 hm1 hm2 hm3 hne
    simp [decode_header, read4, read3, readOne, Header.validate_magic,
      Nat.mod_eq_of_lt hm0, Nat.mod_eq_of_lt hm1, Nat.mod_eq_of_lt hm2,
      Nat.mod_eq_of_lt hm3, hne]
  · intro w0 w1 w2 w3 h0 h1 h2 h3 ch rest
    intro hw0 hw1 hw2 hw3 hh0 hh1 hh2 hh3 hch h3ne h4ne
    simp [decode_header, read4, read3, readOne, Header.validate_magic, Header.MAGIC,
      Channels.tryFrom, Nat.mod_eq_of_lt hw0, Nat.mod_eq_of_lt hw1,
      Nat.mod_eq_of_lt hw2, Nat.mod_eq_of_lt hw3, Nat.mod_eq_of_lt hh0,
      Nat.mod_eq_of_lt hh1, Nat.mod_eq_of_lt hh2, Nat.mod_eq_of_lt hh3,
      Nat.mod_eq_of_lt hch, h3ne, h4ne]
  · intro w0 w1 w2 w3 h0 h1 h2 h3 ch cs rest
    intro hw0 hw1 hw2 hw3 hh0 hh1 hh2 hh3 hcs hch h0ne h1ne
    rcases hch with rfl | rfl <;>
      simp [decode_header, read4, read3, readOne, Header.validate_magic, Header.MAGIC,
        Channels.tryFrom, ColSpace.tryFrom, Nat.mod_eq_of_lt hw0, Nat.mod_eq_of_lt hw1,
        Nat.mod_eq_of_lt hw2, Nat.mod_eq_of_lt hw3, Nat.mod_eq_of_lt hh0,
        Nat.mod_eq_of_lt hh1, Nat.mod_eq_of_lt hh2, Nat.mod_eq_of_lt hh3,
        Nat.mod_eq_of_lt hcs, h0ne, h1ne]
  · intro w0 w1 w2 w3 h0 h1 h2 h3 ch cs t
    intro hw0 hw1 hw2 hw3 hh0 hh1 hh2 hh3 hch ht
    rcases hch with rfl | rfl <;> interval_cases t <;>
      simp [decode_header, read4, read3, readOne, Header.validate_magic, Header.MAGIC,
        HeaderDecodeError.ofStream,
        Channels.tryFrom, ColSpace.tryFrom, Nat.mod_eq_of_lt hw0, Nat.mod_eq_of_lt hw1,
        Nat.mod_eq_of_lt hw2, Nat.mod_eq_of_lt hw3, Nat.mod_eq_of_lt hh0,
        Nat.mod_eq_of_lt hh1, Nat.mod_eq_of_lt hh2, Nat.mod_eq_of_lt hh3]

theorem decode_header_invalid_spec_witness :
    decode_header [.byte 0x70, .byte 0x6F, .byte 0x69, .byte 0x66] =
        .error (.magic [0x70, 0x6F, 0x69, 0x66]) ∧
    decode_header [.byte 0x71, .byte 0x6F, .byte 0x69, .byte 0x66,
        .byte 0, .byte 0, .byte 0, .byte 1, .byte 0, .byte 0, .byte 0, .byte 1,
        .byte 5] = .error (.channels 5) ∧
    decode_header [.byte 0x71, .byte 0x6F, .byte 0x69, .byte 0x66,
        .byte 0, .byte 0, .byte 0, .byte 1, .byte 0, .byte 0, .byte 0, .byte 1,
        .byte 4, .byte 9] = .error (.colSpace 9) ∧
    decode_header (List.take 13
        [.byte 0x71, .byte 0x6F, .byte 0x69, .byte 0x66,
         .byte 0, .byte 0, .byte 0, .byte 1, .byte 0, .byte 0, .byte 0, .byte 1,
         .byte 4, .byte 0]) = .error .unexpectedEof :=
  ⟨decode_header_invalid_spec.1 0x70 0x6F 0x69 0x66 [] (by decide) (by decide)
      (by decide) (by decide) (by decide),
   decode_header_invalid_spec.2.1 0 0 0 1 0 0 0 1 5 [] (by decide) (by decide)
      (by decide) (by decide) (by decide) (by decide) (by decide) (by decide)
      (by decide) (by decide) (by decide),
   decode_header_invalid_spec.2.2.1 0 0 0 1 0 0 0 1 4 9 [] (by decide) (by decide)
      (by decide) (by decide) (by decide) (by decide) (by decide) (by decide)
      (by decide) (Or.inr rfl) (by decide) (by decide),
   decode_header_invalid_spec.2.2.2 0 0 0 1 0 0 0 1 4 0 13 (by decide) (by decide)
      (by decide) (by decide) (by decide) (by decide) (by decide) (by decide)
      (Or.inr rfl) (by decide)⟩

/-- C7: after the pull interface surfaces an error the internal sticky
flag is set, every subsequent pull returns nothing and leaves the state
(including the byte source) untouched; once exhausted or errored, the
size hint is exactly (0, 0), and otherwise its lower bound is 1 and its
upper bound equals `remaining` whenever that value is representable in
the (64-bit) platform size type. -/
theorem iterator_sticky_error_and_size_hint :
    (∀ d : PixelDecoder, d.errored = true → d.next = (none, d)) ∧
    (∀ (d d₂ : PixelDecoder) (e : StreamError), d.next = (some (.error e), d₂) →
        d₂.errored = true ∧ ∀ k, pulls k d₂ = ([], d₂)) ∧
    (∀ d : PixelDecoder, d.errored = true ∨ d.remaining = 0 →
        d.size_hint = (0, some 0)) ∧
    (∀ d : PixelDecoder, d.errored = false → d.remaining ≠ 0 →
        d.size_hint.1 = 1 ∧
          (d.remaining < 2 ^ 64 → d.size_hint.2 = some d.remaining)) := by
  refine ⟨?_, ?_, ?_, ?_⟩
  · intro d h
    exact next_stuck d (Or.inl h)
  · intro d d₂ e h
    have herr := next_error_sets d d₂ e h
    exact ⟨herr, fun k => pulls_stuck k d₂ (Or.inl herr)⟩
  · intro d h
    simp [PixelDecoder.size_hint, h]
  · intro d h1 h2
    constructor
    · simp [PixelDecoder.size_hint, h1, h2]
    · intro h3
      simp [PixelDecoder.size_hint, h1, h2, h3]
      omega

theorem iterator_sticky_error_and_size_hint_witness :
    (PixelDecoder.next ⟨[.byte 0], Pixel.BLACK, PixelIndex.new, 5, 0, true⟩ =
        (none, ⟨[.byte 0], Pixel.BLACK, PixelIndex.new, 5, 0, true⟩)) ∧
    ((⟨[], Pixel.BLACK, PixelIndex.new, 0, 0, true⟩ : PixelDecoder).errored = true ∧
      ∀ k, pulls k ⟨[], Pixel.BLACK, PixelIndex.new, 0, 0, true⟩ =
        ([], ⟨[], Pixel.BLACK, PixelIndex.new, 0, 0, true⟩)) ∧
    (PixelDecoder.size_hint ⟨[], Pixel.BLACK, PixelIndex.new, 0, 0, true⟩ =
        (0, some 0)) ∧
    ((PixelDecoder.size_hint ⟨[.byte 0], Pixel.BLACK, PixelIndex.new, 7, 0, false⟩).1 = 1 ∧
      ((7 : Nat) < 2 ^ 64 →
        (PixelDecoder.size_hint ⟨[.byte 0], Pixel.BLACK, PixelIndex.new, 7, 0, false⟩).2 =
          some 7)) :=
  ⟨iterator_sticky_error_and_size_hint.1 _ (by decide),
   iterator_sticky_error_and_size_hint.2.1 (PixelDecoder.new [] 1)
     ⟨[], Pixel.BLACK, PixelIndex.new, 0, 0, true⟩ .unexpectedEof (by decide),
   iterator_sticky_error_and_size_hint.2.2.1 _ (Or.inl (by decide)),
   iterator_sticky_error_and_size_hint.2.2.2 _ (by decide) (by decide)⟩

/-- C8: whenever the exact output size is unrepresentable in the
platform size type, or the exact reservation cannot be satisfied (its
deterministic capacity-overflow condition: the requested layout exceeds
`isize::MAX` bytes), the exact-allocation operations
(`decode_pixels_all`, spec name `decode_pixels_to_exact_allocation`, and
`decode_bytes_all`, spec name `decode_bytes_to_exact_allocation`) fail
with the `TooLarge` error value (spec name `CapacityExceeded`); they are
total functions and never panic.  In particular this holds for the
`remaining = 0xFFFFFFFF * 0xFFFFFFFF` pixel count primed by a header
declaring width = height = 0xFFFFFFFF. -/
theorem decode_all_capacity_exceeded :
    (∀ d : PixelDecoder, USIZE_MAX < d.remaining ∨ ISIZE_MAX < d.remaining * 4 →
        d.decode_pixels_all = .error .tooLarge) ∧
    (∀ (d : PixelDecoder) (N : Nat) (f : Pixel → List Nat),
        USIZE_MAX < d.remaining ∨ USIZE_MAX < d.remaining * N ∨
          ISIZE_MAX < d.remaining * N →
        d.decode_bytes_all N f = .error .tooLarge) ∧
    (∀ d : PixelDecoder, d.remaining = 0xFFFFFFFF * 0xFFFFFFFF →
        d.decode_pixels_all = .error .tooLarge ∧
          d.decode_bytes_all 4 Pixel.rgba = .error .tooLarge) := by
  refine ⟨?_, ?_, ?_⟩
  · intro d h
    simp only [PixelDecoder.decode_pixels_all]
    split_ifs with g1 g2
    · rfl
    · rfl
    · rcases h with h | h
      · exact absurd h g1
      · exact absurd h g2
  · intro d N f h
    simp only [PixelDecoder.decode_bytes_all]
    split_ifs with g1 g2 g3
    · rfl
    · rfl
    · rfl
    · rcases h with h | h | h
      · exact absurd h g1
      · exact absurd h g2
      · exact absurd h g3
  · intro d h
    constructor
    · simp only [PixelDecoder.decode_pixels_all, h, USIZE_MAX, ISIZE_MAX]
      norm_num
    · simp only [PixelDecoder.decode_bytes_all, h, USIZE_MAX, ISIZE_MAX]
      norm_num

theorem decode_all_capacity_exceeded_witness :
    (PixelDecoder.new [] (0xFFFFFFFF * 0xFFFFFFFF)).decode_pixels_all =
        .error .tooLarge ∧
      (PixelDecoder.new [] (0xFFFFFFFF * 0xFFFFFFFF)).decode_bytes_all 4 Pixel.rgba =
        .error .tooLarge :=
  decode_all_capacity_exceeded.2.2 (PixelDecoder.new [] (0xFFFFFFFF * 0xFFFFFFFF)) rfl

/-- C9: if a pixel P is inserted into the 64-slot color cache and no
later insertion targets slot `pixel_hash P`, a lookup whose low 6 bits
equal `pixel_hash P` returns exactly P; and a cache-index opcode byte
(top two bits 00, so the byte is its own low-6-bit slot value) makes the
decoder set the current pixel (`previous`) to exactly the cached pixel. -/
theorem cache_round_trip :
    (∀ (idx : PixelIndex) (P : Pixel) (qs : List Pixel) (b : Nat),
        idx.length = 64 → (∀ q ∈ qs, pixel_hash q ≠ pixel_hash P) →
        b % 64 = pixel_hash P →
        (qs.foldl PixelIndex.insert (idx.insert P)).masked_get b = P) ∧
    (∀ (d : PixelDecoder) (b : Nat) (rest : ByteStream) (P : Pixel),
        d.errored = false → d.run = 0 → d.remaining ≠ 0 →
        d.stream = .byte b :: rest → b < 64 → d.index.masked_get b = P →
        d.next = (some (.ok P),
          { d with
              stream := rest
              previous := P
              remaining := d.remaining - 1 })) := by
  constructor
  · intro idx P qs b hlen hqs hb
    rw [PixelIndex.masked_get_foldl_insert (idx.insert P) qs b
      (fun q hq => by rw [hb]; exact (hqs q hq).symm)]
    exact PixelIndex.masked_get_insert_self idx P b hlen hb
  · intro d b rest P herr hrun hrem hs hb hP
    rw [next_eq_decodeStep d herr hrem, decodeStep_set_remaining,
      decodeStep_indexop d b rest hrun hs hb]
    simp only [hP]

theorem cache_round_trip_witness :
    (([⟨0, 0, 0, 1⟩] : List Pixel).foldl PixelIndex.insert
        (PixelIndex.new.insert ⟨1, 2, 3, 4⟩)).masked_get 14 = ⟨1, 2, 3, 4⟩ ∧
    PixelDecoder.next
        ⟨[.byte 14, .byte 0], ⟨9, 9, 9, 9⟩,
          PixelIndex.new.insert ⟨1, 2, 3, 4⟩, 6, 0, false⟩ =
      (some (.ok ⟨1, 2, 3, 4⟩),
        { (⟨[.byte 14, .byte 0], ⟨9, 9, 9, 9⟩,
            PixelIndex.new.insert ⟨1, 2, 3, 4⟩, 6, 0, false⟩ : PixelDecoder) with
            stream := [.byte 0]
            previous := ⟨1, 2, 3, 4⟩
            remaining := 6 - 1 }) :=
  ⟨cache_round_trip.1 PixelIndex.new ⟨1, 2, 3, 4⟩ [⟨0, 0, 0, 1⟩] 14
      (by decide) (by decide) (by decide),
   cache_round_trip.2 ⟨[.byte 14, .byte 0], ⟨9, 9, 9, 9⟩,
        PixelIndex.new.insert ⟨1, 2, 3, 4⟩, 6, 0, false⟩ 14 [.byte 0] ⟨1, 2, 3, 4⟩
      (by decide) (by decide) (by decide) (by decide) (by decide) (by decide)⟩

/-- C10: a run opcode (a byte in 0xC0..0xFD, the top-two-bits-11 bytes
dispatched as runs) and every drained run step leave the color cache
(`index`) completely unchanged, in both the iterator path (`next`) and
the buffer-fill loop (`decodeIntoLoop`). -/
theorem run_opcode_preserves_cache :
    (∀ d : PixelDecoder, d.errored = false → d.remaining ≠ 0 → 0 < d.run →
        d.next.2.index = d.index) ∧
    (∀ (d : PixelDecoder) (b : Nat) (rest : ByteStream),
        d.errored = false → d.remaining ≠ 0 → d.run = 0 →
        d.stream = .byte b :: rest → 192 ≤ b → b ≤ 253 →
        d.next.2.index = d.index) ∧
    (∀ (T : Type) (f : Pixel → T) (d : PixelDecoder), 0 < d.run →
        (decodeIntoLoop f 1 d).2.2.index = d.index) ∧
    (∀ (T : Type) (f : Pixel → T) (d : PixelDecoder) (b : Nat) (rest : ByteStream),
        d.run = 0 → d.stream = .byte b :: rest → 192 ≤ b → b ≤ 253 →
        (decodeIntoLoop f 1 d).2.2.index = d.index) := by
  refine ⟨?_, ?_, ?_, ?_⟩
  · intro d herr hrem hrun
    rw [next_eq_decodeStep d herr hrem, decodeStep_set_remaining,
      decodeStep_run d hrun]
  · intro d b rest herr hrem hrun hs hb1 hb2
    rw [next_eq_decodeStep d herr hrem, decodeStep_set_remaining,
      decodeStep_runop d b rest hrun hs hb1 hb2]
  · intro T f d hrun
    rw [decodeIntoLoop_succ, decodeStep_run d hrun]
    rfl
  · intro T f d b rest hrun hs hb1 hb2
    rw [decodeIntoLoop_succ, decodeStep_runop d b rest hrun hs hb1 hb2]
    rfl

theorem run_opcode_preserves_cache_witness :
    (PixelDecoder.next ⟨[.byte 0], Pixel.BLACK, PixelIndex.new, 4, 3, false⟩).2.index =
        PixelIndex.new ∧
    (PixelDecoder.next ⟨[.byte 200], Pixel.BLACK, PixelIndex.new, 4, 0, false⟩).2.index =
        PixelIndex.new ∧
    (decodeIntoLoop id 1 ⟨[.byte 0], Pixel.BLACK, PixelIndex.new, 4, 3, false⟩).2.2.index =
        PixelIndex.new ∧
    (decodeIntoLoop id 1 ⟨[.byte 200], Pixel.BLACK, PixelIndex.new, 4, 0, false⟩).2.2.index =
        PixelIndex.new :=
  ⟨run_opcode_preserves_cache.1 _ (by decide) (by decide) (by decide),
   run_opcode_preserves_cache.2.1 _ 200 [] (by decide) (by decide) (by decide)
     (by decide) (by decide) (by decide),
   run_opcode_preserves_cache.2.2.1 Pixel id _ (by decide),
   run_opcode_preserves_cache.2.2.2 Pixel id _ 200 [] (by decide) (by decide)
     (by decide) (by decide)⟩
